import Mathlib

/-!
Verification of the core logic of `catppuccin-customize` (`src/main.py`):
edit-rule matching and application, the palette data model and its derived
views, Python-dict merge semantics, and the text-substitution procedure.

Python names with a leading underscore (`_Edit`, `_Colors`, `_Flavor`) drop
the underscore here, since Lean reserves leading-underscore identifiers for
internal use.
-/

set_option autoImplicit false

namespace Catppuccin

/-! ## Python `str.replace` and the sequential substitution loop -/

/-- One pass of Python `str.replace(pat, rep)` on a character list, with
explicit fuel for termination.  At each position: if `pat` is a (non-empty)
prefix of the remaining text, emit `rep` and continue after the match;
otherwise keep one character and move on.  Replaced text is never rescanned,
matching CPython semantics. -/
def replaceFuel (rep pat : List Char) : Nat → List Char → List Char
  | 0, text => text
  | _ + 1, [] => []
  | fuel + 1, c :: rest =>
    if pat ≠ [] ∧ pat.isPrefixOf (c :: rest) then
      rep ++ replaceFuel rep pat fuel ((c :: rest).drop pat.length)
    else
      c :: replaceFuel rep pat fuel rest

/-- Python `text.replace(pat, rep)` (from `Replace.__call__`,
`src/main.py` line 169), restricted to non-empty patterns: every hex key fed
to the loop is a non-empty string.  An empty pattern leaves the text
unchanged here. -/
def pyReplace (text pat rep : String) : String :=
  ⟨replaceFuel rep.toList pat.toList text.toList.length text.toList⟩

/-- The substitution loop of `Replace.__call__` (`src/main.py` lines
168-169): `for prev, new in colors.items(): text = text.replace(prev, new)`.
Each replacement acts on the text produced by the previous one. -/
def substitute (colors : List (String × String)) (text : String) : String :=
  colors.foldl (fun t p => pyReplace t p.1 p.2) text

/-! ## Python `dict` insertion-order semantics -/

/-- Inserting `(k, v)` into a Python dict represented as an association list
in insertion order: an existing key keeps its position and gets the new
value, a new key is appended at the end (CPython 3.7+ semantics). -/
def dictInsert : List (String × String) → String → String →
    List (String × String)
  | [], k, v => [(k, v)]
  | q :: rest, k, v =>
    if q.1 = k then (k, v) :: rest else q :: dictInsert rest k v

/-- Python `dict(pairs)`: build a dict from a sequence of key-value pairs,
later pairs overwriting earlier ones with the same key. -/
def dictOf (pairs : List (String × String)) : List (String × String) :=
  pairs.foldl (fun m p => dictInsert m p.1 p.2) []

/-- Dict lookup: the value stored at `k`, if present. -/
def dictLookup (m : List (String × String)) (k : String) : Option String :=
  (m.find? (fun p => p.1 = k)).map (fun p => p.2)

/-! ## `_Edit` (`src/main.py` lines 24-41) -/

/-- The `_Edit` rule record.  `type` is `'value'` or `'multiply'` for rules
that come through the typed decoder, but the dataclass itself accepts any
string (Python does not enforce `Literal` at construction time), so we model
it as `String`.  `name` and `accent` are the optional filters. -/
structure Edit where
  «variable» : String
  value : Float
  type : String := "value"
  name : Option String := none
  accent : Option Bool := none

/-- Model of `_Edit.__call__` (`src/main.py` lines 33-41): `'value'` mode returns
`value`, `'multiply'` mode returns `value * self.value`, any other mode
raises `ValueError(self.type)`. -/
def Edit.call (e : Edit) (value : Float) : Except String Float :=
  if e.type = "value" then .ok e.value
  else if e.type = "multiply" then .ok (value * e.value)
  else .error e.type

/-! ## Source palette colors (the external `catppuccin` dataset entry) -/

/-- The fields of a `catppuccin.models.Color` used by `_Colors.create`:
human name, stable identifier, hex string, accent flag. -/
structure SrcColor where
  name : String
  identifier : String
  hex : String
  accent : Bool

/-- The rule-matching condition of `_Colors.create` (`src/main.py` lines
56-59): `edit.name in {color.name, color.identifier} or edit.accent ==
color.accent`.  In Python, `None in {str, str}` is `False` and
`None == bool` is `False`, which the `Option` comparisons reproduce. -/
def ruleMatches (e : Edit) (color : SrcColor) : Bool :=
  (e.name = some color.name || e.name = some color.identifier)
    || e.accent = some color.accent

/-! ## The perceptual color model (external collaborator interface) -/

/-- The Okhsl representation: a total assignment of channel names to values.
`coloraide`'s channel validation (`UnknownChannel`) is not modelled; no
claim depends on it. -/
def Channels : Type := String → Float

/-- Model of `c.set(edit.variable, edit)` (`src/main.py` line 60): `coloraide` calls
the edit with the current channel value and stores the result; an exception
raised by the edit propagates. -/
def setChannel (st : Channels) (e : Edit) : Except String Channels :=
  match e.call (st e.«variable») with
  | .ok v => .ok (fun ch => if ch = e.«variable» then v else st ch)
  | .error err => .error err

/-- The conversion interface of the perceptual color model, treated as a
black box: `toOkhsl` is `_Color(hex).convert('okhsl')`, `fromOkhsl` is
`c.convert('srgb').to_string(hex=True)`. -/
structure ColorModel where
  toOkhsl : String → Channels
  fromOkhsl : Channels → String

/-! ## `_Colors` (`src/main.py` lines 44-69) -/

/-- The `_Colors` record: identifier, original hex, custom hex, changed
flag. -/
structure Colors where
  name : String
  original : String
  custom : String
  changed : Bool
deriving DecidableEq

/-- The rule-application loop body of `_Colors.create`: apply `e` to the
channel state if it matches `color`, otherwise leave the state alone. -/
def applyEdit (color : SrcColor) (st : Channels) (e : Edit) :
    Except String Channels :=
  if ruleMatches e color then setChannel st e else .ok st

/-- Model of `_Colors.create` (`src/main.py` lines 51-69): convert the hex
to Okhsl, apply each matching edit in list order, convert back, and record
`changed = color.hex != custom`. -/
def Colors.create (cm : ColorModel) (color : SrcColor) (edits : List Edit) :
    Except String Colors := do
  let st ← edits.foldlM (applyEdit color) (cm.toOkhsl color.hex)
  let custom := cm.fromOkhsl st
  pure { name := color.identifier
         original := color.hex
         custom := custom
         changed := color.hex != custom }

/-! ## `_Flavor` (`src/main.py` lines 72-91) -/

/-- The `_Flavor` record: identifier and its colors in dataset order. -/
structure Flavor where
  name : String
  colors : List Colors

/-- Model of `_Flavor.original` (`src/main.py` lines 84-85). -/
def Flavor.original (f : Flavor) : List (String × String) :=
  dictOf (f.colors.map (fun c => (c.name, c.original)))

/-- Model of `_Flavor.custom` (`src/main.py` lines 87-88). -/
def Flavor.custom (f : Flavor) : List (String × String) :=
  dictOf (f.colors.map (fun c => (c.name, c.custom)))

/-- Model of `_Flavor.dict` (`src/main.py` lines 90-91):
`{c.original: c.custom for c in self.colors if c.changed}`. -/
def Flavor.dict (f : Flavor) : List (String × String) :=
  dictOf ((f.colors.filter (fun c => c.changed)).map
    (fun c => (c.original, c.custom)))

/-- Model of `Replace._colors` (`src/main.py` lines 157-161): yield every flavor's
`dict()` items, in flavor iteration order.  The palette dict preserves
`catppuccin.PALETTE` order, so it is modelled as the list of flavors. -/
def replaceColors (palette : List Flavor) : List (String × String) :=
  palette.flatMap Flavor.dict

/-! ## Configuration loading (`Editor.edits`, `src/main.py` lines 113-118)

`Editor.edits` decodes the TOML configuration with
`msgspec.toml.decode(..., type=dict[str, tuple[_Edit, ...]])`.  `msgspec`
validates decoded values against the annotated types of the `_Edit`
dataclass: `variable: str` and `value: float` are required, `type` must
satisfy `Literal['value', 'multiply']` (defaulting to `'value'` when
absent), and `name` / `accent` are optional.  A field value outside the
`Literal` raises `msgspec.ValidationError` during decoding. -/

/-- A raw rule record as it appears in the TOML file: each field either
present with a value or absent. -/
structure RawEdit where
  «variable» : Option String
  value : Option Float
  type : Option String
  name : Option String
  accent : Option Bool

/-- Typed decoding of one rule record against the `_Edit` annotations
(`src/main.py` lines 24-31), as performed by `msgspec.toml.decode` in
`Editor.edits`: missing required fields and a `type` outside
`{'value', 'multiply'}` are decode errors. -/
def decodeEdit (r : RawEdit) : Except String Edit :=
  match r.«variable», r.value with
  | none, _ => .error "missing field variable"
  | some _, none => .error "missing field value"
  | some v, some value =>
    let type := r.type.getD "value"
    if type = "value" ∨ type = "multiply" then
      .ok { «variable» := v, value := value, type := type,
            name := r.name, accent := r.accent }
    else
      .error "invalid literal for field type"

/-- Decoding the whole configuration mapping: every rule record of every
key must decode; any failure aborts the load. -/
def decodeConfig (raw : List (String × List RawEdit)) :
    Except String (List (String × List Edit)) :=
  raw.mapM (fun p => do pure (p.1, ← p.2.mapM decodeEdit))

/-! ## `Replace` (`src/main.py` lines 144-171) -/

/-- The slice of `pathlib.Path` that `Replace` uses: a stem and a suffix.
`with_stem` replaces the stem and keeps the suffix. -/
structure PyPath where
  stem : String
  suffix : String
deriving DecidableEq

/-- Model of `Path.with_stem`. -/
def PyPath.withStem (p : PyPath) (s : String) : PyPath :=
  { p with stem := s }

/-- A filesystem as a finite map from paths to text contents, in creation
order. -/
structure FS where
  files : List (PyPath × String)

/-- Model of `Path.exists()`. -/
def FS.pathExists (fs : FS) (p : PyPath) : Bool :=
  fs.files.any (fun q => q.1 = p)

/-- Model of `Path.read_text()`: `none` models `FileNotFoundError`. -/
def FS.readText (fs : FS) (p : PyPath) : Option String :=
  (fs.files.find? (fun q => q.1 = p)).map (fun q => q.2)

/-- Model of `Path.write_text(text)`: create or truncate-and-write `p`. -/
def FS.writeText (fs : FS) (p : PyPath) (text : String) : FS :=
  ⟨(fs.files.filter (fun q => q.1 ≠ p)) ++ [(p, text)]⟩

/-- The `Replace` command's inputs: positional source path and optional
destination path (the `conf` field only feeds the palette build, which is
passed in separately as the merged color mapping). -/
structure Replace where
  src : PyPath
  dst : Option PyPath

/-- Destination resolution inside `Replace._dst` (`src/main.py` line 152):
`self.dst or self.src.with_stem(f'{self.src.stem}-replaced')`. -/
def Replace.dstResolved (r : Replace) : PyPath :=
  r.dst.getD (r.src.withStem (r.src.stem ++ "-replaced"))

/-- Model of `Replace.__call__` (`src/main.py` lines 163-171) as a transition on the
filesystem, returning the error raised (if any) together with the resulting
filesystem.  `_dst` runs first and raises `FileExistsError` before the
source is read; only after the source is read and transformed is the
destination written.  `colors` is the merged diff mapping
`dict(self._colors())`. -/
def Replace.run (r : Replace) (colors : List (String × String)) (fs : FS) :
    Except String Unit × FS :=
  let dst := r.dstResolved
  if fs.pathExists dst then
    (.error "FileExistsError", fs)
  else
    match fs.readText r.src with
    | none => (.error "FileNotFoundError", fs)
    | some text => (.ok (), fs.writeText dst (substitute colors text))

/-! ## Concrete fixtures used by witnesses and counterexamples -/

/-- An edit rule with both filters unset (`name = None`, `accent = None`),
as produced by a config record carrying only `variable` and `value`. -/
def unfilteredEdit : Edit :=
  { «variable» := "lightness", value := 0.5 }

/-- The first color of the dataset's first flavor: name `"Rosewater"`,
identifier `"rosewater"`, hex `#f5e0dc`, accent. -/
def rosewater : SrcColor :=
  ⟨"Rosewater", "rosewater", "#f5e0dc", true⟩

/-- A non-accent dataset color: name `"Text"`, identifier `"text"`,
hex `#cdd6f4`. -/
def textColor : SrcColor :=
  ⟨"Text", "text", "#cdd6f4", false⟩

/-- An absolute-mode (`type = 'value'`) rule. -/
def absEdit : Edit :=
  { «variable» := "lightness", value := 0.5, type := "value" }

/-- A multiply-mode rule. -/
def mulEdit : Edit :=
  { «variable» := "saturation", value := 3.0, type := "multiply" }

/-- A rule whose mode is neither `'value'` nor `'multiply'`, constructed
directly (the typed decoder would reject it). -/
def bogusEdit : Edit :=
  { «variable» := "lightness", value := 0.5, type := "bogus" }

/-- A raw config record whose `type` field is `"bogus"`. -/
def bogusRaw : RawEdit :=
  ⟨some "lightness", some 0.5, some "bogus", none, none⟩

/-- A name-filtered rule whose filter excludes `textColor`. -/
def otherNameEdit : Edit :=
  { «variable» := "lightness", value := 0.5, name := some "Rosewater" }

/-- A trivial concrete color model whose conversions round-trip exactly on
the hex `#cdd6f4`: every channel reads `0.0` and converting back always
yields `#cdd6f4`. -/
def constModel : ColorModel :=
  ⟨fun _ => fun _ => 0.0, fun _ => "#cdd6f4"⟩

/-- A source path `input.css`. -/
def srcPath : PyPath := ⟨"input", ".css"⟩

/-- The derived destination path `input-replaced.css`. -/
def dstPath : PyPath := ⟨"input-replaced", ".css"⟩

/-- A filesystem in which the destination already exists with some content
and the source file is absent. -/
def fsWithDst : FS := ⟨[(dstPath, "pre-existing content")]⟩

/-- The substitution command invoked on `input.css` with no explicit
destination. -/
def replaceCmd : Replace := ⟨srcPath, none⟩

/-- A flavor with one changed and one unchanged color, each with a
consistent `changed` flag. -/
def sampleFlavor : Flavor :=
  ⟨"mocha",
    [⟨"rosewater", "#f5e0dc", "#aabbcc", true⟩,
     ⟨"text", "#cdd6f4", "#cdd6f4", false⟩]⟩

/-! ## Helper lemmas -/

/-- Folding the rule-application loop over edits none of which match leaves
the channel state untouched. -/
theorem foldlM_applyEdit_of_no_match (color : SrcColor) (edits : List Edit)
    (h : ∀ e ∈ edits, ruleMatches e color = false) :
    ∀ st : Channels, edits.foldlM (applyEdit color) st = .ok st := by
  induction edits with
  | nil => intro st; rfl
  | cons e es ih =>
    intro st
    have he : ruleMatches e color = false := h e (by simp)
    have hes : ∀ x ∈ es, ruleMatches x color = false :=
      fun x hx => h x (by simp [hx])
    have happ : applyEdit color st e = .ok st := by simp [applyEdit, he]
    rw [List.foldlM_cons, happ]
    exact ih hes st

/-- Looking up the key just inserted returns the inserted value. -/
theorem dictLookup_dictInsert_self (m : List (String × String))
    (k v : String) : dictLookup (dictInsert m k v) k = some v := by
  induction m with
  | nil => simp [dictInsert, dictLookup]
  | cons q rest ih =>
    by_cases hq : q.1 = k
    · simp [dictInsert, hq, dictLookup]
    · simp [dictInsert, hq, dictLookup, List.find?_cons, hq]
      simpa [dictLookup] using ih

/-- Inserting at a different key does not change a lookup. -/
theorem dictLookup_dictInsert_ne (m : List (String × String))
    (k k' v' : String) (hk : k ≠ k') :
    dictLookup (dictInsert m k' v') k = dictLookup m k := by
  induction m with
  | nil => simp [dictInsert, dictLookup, List.find?_cons, Ne.symm hk]
  | cons q rest ih =>
    by_cases hq : q.1 = k'
    · have hqk : q.1 ≠ k := by rw [hq]; exact Ne.symm hk
      simp [dictInsert, hq, dictLookup, List.find?_cons, Ne.symm hk, hqk]
    · by_cases hqk : q.1 = k
      · simp [dictInsert, hq, dictLookup, List.find?_cons, hqk, hk]
      · simp only [dictLookup] at ih
        simp [dictInsert, hq, dictLookup, List.find?_cons, hqk, ih]

/-- A key is in the dict after insertion iff it was there before or is the
inserted key. -/
theorem mem_keys_dictInsert (m : List (String × String)) (k v a : String) :
    a ∈ (dictInsert m k v).map Prod.fst ↔ a ∈ m.map Prod.fst ∨ a = k := by
  induction m with
  | nil => simp [dictInsert]
  | cons q rest ih =>
    by_cases hq : q.1 = k
    · subst hq
      simp [dictInsert]
      tauto
    · simp [dictInsert, hq, ih]
      tauto

/-- Insertion preserves distinctness of keys. -/
theorem dictInsert_keys_nodup (m : List (String × String)) (k v : String)
    (h : (m.map Prod.fst).Nodup) :
    ((dictInsert m k v).map Prod.fst).Nodup := by
  induction m with
  | nil => simp [dictInsert]
  | cons q rest ih =>
    rw [List.map_cons, List.nodup_cons] at h
    obtain ⟨hq1, h2⟩ := h
    by_cases hq : q.1 = k
    · subst hq
      have heq : dictInsert (q :: rest) q.1 v = (q.1, v) :: rest := by
        simp [dictInsert]
      rw [heq, List.map_cons, List.nodup_cons]
      exact ⟨hq1, h2⟩
    · have hmem : q.1 ∉ (dictInsert rest k v).map Prod.fst := by
        rw [mem_keys_dictInsert]
        rintro (hmem | rfl)
        · exact hq1 hmem
        · exact hq rfl
      have heq : dictInsert (q :: rest) k v = q :: dictInsert rest k v := by
        simp [dictInsert, hq]
      rw [heq, List.map_cons, List.nodup_cons]
      exact ⟨hmem, ih h2⟩

/-- Inserting a fresh key appends the pair at the end. -/
theorem dictInsert_of_not_mem (m : List (String × String)) (k v : String)
    (h : k ∉ m.map Prod.fst) : dictInsert m k v = m ++ [(k, v)] := by
  induction m with
  | nil => simp [dictInsert]
  | cons q rest ih =>
    rw [List.map_cons] at h
    have h1 : q.1 ≠ k := fun hk => h (by simp [hk.symm])
    have h2 : k ∉ rest.map Prod.fst := fun hk => h (by simp [hk])
    simp [dictInsert, h1, ih h2]

/-- Building a dict from a snoc is inserting the last pair into the dict of
the rest. -/
theorem dictOf_append_single (pairs : List (String × String)) (k v : String) :
    dictOf (pairs ++ [(k, v)]) = dictInsert (dictOf pairs) k v := by
  simp [dictOf, List.foldl_append]

/-- The keys of a built dict are the keys of the input pairs. -/
theorem mem_keys_dictOf (pairs : List (String × String)) (a : String) :
    a ∈ (dictOf pairs).map Prod.fst ↔ a ∈ pairs.map Prod.fst := by
  induction pairs using List.reverseRecOn with
  | nil => simp [dictOf]
  | append_singleton l p ih =>
    cases p with
    | mk k v =>
      rw [dictOf_append_single, mem_keys_dictInsert, ih, List.map_append]
      simp

/-- The keys of a built dict are distinct. -/
theorem dictOf_keys_nodup (pairs : List (String × String)) :
    ((dictOf pairs).map Prod.fst).Nodup := by
  induction pairs using List.reverseRecOn with
  | nil => simp [dictOf]
  | append_singleton l p ih =>
    cases p with
    | mk k v =>
      rw [dictOf_append_single]
      exact dictInsert_keys_nodup _ _ _ ih

/-- Looking up a key in a built dict returns the value of the last input
pair carrying that key. -/
theorem dictLookup_dictOf (pairs : List (String × String)) (k : String) :
    dictLookup (dictOf pairs) k =
      ((pairs.filter (fun p => p.1 = k)).getLast?).map Prod.snd := by
  induction pairs using List.reverseRecOn with
  | nil => simp [dictOf, dictLookup]
  | append_singleton l p ih =>
    cases p with
    | mk k' v' =>
      rw [dictOf_append_single, List.filter_append]
      by_cases hk : k' = k
      · subst hk
        rw [dictLookup_dictInsert_self]
        simp
      · rw [dictLookup_dictInsert_ne _ _ _ _ (Ne.symm hk), ih]
        simp [hk]

/-- A dict built from pairs with distinct keys is those pairs unchanged. -/
theorem dictOf_eq_self_of_nodup (pairs : List (String × String))
    (h : (pairs.map Prod.fst).Nodup) : dictOf pairs = pairs := by
  induction pairs using List.reverseRecOn with
  | nil => rfl
  | append_singleton l p ih =>
    cases p with
    | mk k v =>
      rw [List.map_append, List.nodup_append] at h
      obtain ⟨h1, _, hdisj⟩ := h
      have hk : k ∉ l.map Prod.fst := fun hmem => hdisj hmem (by simp)
      rw [dictOf_append_single,
        dictInsert_of_not_mem _ _ _
          (fun hmem => hk ((mem_keys_dictOf l k).mp hmem)),
        ih h1]

/-! ## Claim theorems -/

/-- C1 counterexample: the edit rule with both filters unset does NOT match
the dataset color Rosewater, refuting the claim that such a rule matches
every color.  In `_Colors.create`, `None in {name, identifier}` and
`None == accent` are both `False` in Python. -/
theorem c1_unfiltered_rule_counterexample :
    ruleMatches unfilteredEdit rosewater = false := by decide

/-- C1 (amended): an edit rule whose name filter and accent filter are both
unset matches NO color, so its transform is never applied to any color's
channel state. -/
theorem c1_unfiltered_rule_matches_no_color (e : Edit) (color : SrcColor)
    (hname : e.name = none) (haccent : e.accent = none) (st : Channels) :
    ruleMatches e color = false ∧ applyEdit color st e = .ok st := by
  have hm : ruleMatches e color = false := by
    simp [ruleMatches, hname, haccent]
  exact ⟨hm, by simp [applyEdit, hm]⟩

/-- C1 witness: the amended theorem applied to the unfiltered rule and the
Text color, with both filter hypotheses discharged. -/
theorem c1_unfiltered_rule_matches_no_color_witness :
    unfilteredEdit.name = none ∧ unfilteredEdit.accent = none ∧
      (ruleMatches unfilteredEdit textColor = false ∧
        applyEdit textColor (fun _ => 0.0) unfilteredEdit =
          .ok (fun _ => 0.0)) :=
  ⟨rfl, rfl,
    c1_unfiltered_rule_matches_no_color unfilteredEdit textColor rfl rfl
      (fun _ => 0.0)⟩

/-- C2: the substitution loop applies the diff pairs sequentially, each
replacement acting on the text produced by the previous one: with the diff
pairs `#ff0000 → #00ff00` and `#00ff00 → #0000ff` in that order, the input
`#ff0000` cascades to `#0000ff`. -/
theorem c2_substitution_cascades :
    substitute [("#ff0000", "#00ff00"), ("#00ff00", "#0000ff")] "#ff0000"
      = "#0000ff" := by decide

/-- C3 counterexample: loading a configuration that contains a rule whose
mode is `"bogus"` FAILS at configuration-load time, refuting the claim that
such a configuration loads successfully: `msgspec.toml.decode` validates
the `Literal['value', 'multiply']` annotation of `_Edit.type` while
decoding `Editor.edits`. -/
theorem c3_invalid_mode_load_counterexample :
    decodeConfig [("dark", [bogusRaw]), ("light", [])]
      = .error "invalid literal for field type" := rfl

/-- C3 (amended): a rule whose mode is neither `'value'` nor `'multiply'`
is rejected already at configuration-load time by the typed decoder; the
application-time `ValueError` of `_Edit.__call__` is reached only by a rule
object constructed directly, which does fail the first time it is
applied. -/
theorem c3_invalid_mode_rejected_at_load (t : String) (h1 : t ≠ "value")
    (h2 : t ≠ "multiply") :
    (∀ r : RawEdit, r.type = some t → ∃ msg, decodeEdit r = .error msg) ∧
      (∀ (e : Edit) (v : Float), e.type = t → e.call v = .error t) := by
  constructor
  · intro r hr
    cases hv : r.«variable» with
    | none => exact ⟨"missing field variable", by simp [decodeEdit, hv]⟩
    | some s =>
      cases hval : r.value with
      | none => exact ⟨"missing field value", by simp [decodeEdit, hv, hval]⟩
      | some x =>
        exact ⟨"invalid literal for field type",
          by simp [decodeEdit, hv, hval, hr, h1, h2]⟩
  · intro e v he
    simp [Edit.call, he, h1, h2]

/-- C3 witness: the amended theorem applied to the mode `"bogus"`, the raw
record `bogusRaw` and the directly constructed rule `bogusEdit`. -/
theorem c3_invalid_mode_rejected_at_load_witness :
    (∃ msg, decodeEdit bogusRaw = .error msg) ∧
      bogusEdit.call 1.0 = .error "bogus" :=
  ⟨(c3_invalid_mode_rejected_at_load "bogus" (by decide) (by decide)).1
      bogusRaw rfl,
    (c3_invalid_mode_rejected_at_load "bogus" (by decide) (by decide)).2
      bogusEdit 1.0 rfl⟩

/-- C4: when the resolved destination of the substitution command already
exists, the run fails with `FileExistsError`, the filesystem is unchanged
(so the destination's content is untouched), and the error is raised before
the source is read (the conclusion holds whether or not the source
exists). -/
theorem c4_replace_dst_exists_aborts (r : Replace)
    (colors : List (String × String)) (fs : FS)
    (h : fs.pathExists r.dstResolved = true) :
    r.run colors fs = (.error "FileExistsError", fs) ∧
      (r.run colors fs).2.readText r.dstResolved =
        fs.readText r.dstResolved := by
  have hrun : r.run colors fs = (.error "FileExistsError", fs) := by
    simp [Replace.run, h]
  exact ⟨hrun, by rw [hrun]⟩

/-- C4 witness: a filesystem holding only the derived destination
`input-replaced.css` (the source `input.css` is absent, so the failure
cannot come from reading the source). -/
theorem c4_replace_dst_exists_aborts_witness :
    fsWithDst.pathExists replaceCmd.dstResolved = true ∧
      fsWithDst.readText replaceCmd.src = none ∧
      (replaceCmd.run [] fsWithDst = (.error "FileExistsError", fsWithDst) ∧
        (replaceCmd.run [] fsWithDst).2.readText replaceCmd.dstResolved =
          fsWithDst.readText replaceCmd.dstResolved) :=
  ⟨by decide, by decide,
    c4_replace_dst_exists_aborts replaceCmd [] fsWithDst (by decide)⟩

/-- C5: a rule matches a color if and only if its name filter is set and
equals the color's human name or stable identifier, or its accent filter is
set and equals the color's accent flag. -/
theorem c5_rule_matches_iff (e : Edit) (color : SrcColor) :
    ruleMatches e color = true ↔
      ((∃ s, e.name = some s ∧ (s = color.name ∨ s = color.identifier)) ∨
        (∃ b, e.accent = some b ∧ b = color.accent)) := by
  simp only [ruleMatches, Bool.or_eq_true, decide_eq_true_eq]
  constructor
  · rintro ((h | h) | h)
    · exact .inl ⟨color.name, h, .inl rfl⟩
    · exact .inl ⟨color.identifier, h, .inr rfl⟩
    · exact .inr ⟨color.accent, h, rfl⟩
  · rintro (⟨s, hs, rfl | rfl⟩ | ⟨b, hb, rfl⟩)
    · exact .inl (.inl hs)
    · exact .inl (.inr hs)
    · exact .inr hb

/-- C6: a color that matches no rule (in particular, with an empty rule
list) comes out of `_Colors.create` with `custom` equal to `original`
byte-for-byte and `changed = false`, provided the black-box perceptual
round trip is exact on that hex (the conversion math is an external
collaborator). -/
theorem c6_no_match_passthrough (cm : ColorModel) (color : SrcColor)
    (edits : List Edit)
    (hmatch : ∀ e ∈ edits, ruleMatches e color = false)
    (hrt : cm.fromOkhsl (cm.toOkhsl color.hex) = color.hex) :
    Colors.create cm color edits =
      .ok { name := color.identifier, original := color.hex,
            custom := color.hex, changed := false } := by
  unfold Colors.create
  rw [foldlM_applyEdit_of_no_match color edits hmatch]
  simp [hrt]

/-- C6 witness: the constant color model (exact round trip on `#cdd6f4`),
the Text color, and a single rule whose name filter excludes it. -/
theorem c6_no_match_passthrough_witness :
    (∀ e ∈ [otherNameEdit], ruleMatches e textColor = false) ∧
      constModel.fromOkhsl (constModel.toOkhsl textColor.hex) =
        textColor.hex ∧
      Colors.create constModel textColor [otherNameEdit] =
        .ok { name := "text", original := "#cdd6f4", custom := "#cdd6f4",
              changed := false } :=
  ⟨by decide, rfl,
    c6_no_match_passthrough constModel textColor [otherNameEdit]
      (by decide) rfl⟩

/-- C7: for colors whose `changed` flag is consistent
(`changed = original != custom`, as `_Colors.create` guarantees) and whose
changed originals are distinct (as in the dataset), `_Flavor.dict` is
exactly the `(original, custom)` pairs of the changed colors, and never
contains an entry whose original equals its custom. -/
theorem c7_diff_exact_and_minimal (f : Flavor)
    (hwf : ∀ c ∈ f.colors, c.changed = (c.original != c.custom))
    (hnodup : ((f.colors.filter (fun c => c.changed)).map
      (fun c => c.original)).Nodup) :
    f.dict = (f.colors.filter (fun c => c.changed)).map
        (fun c => (c.original, c.custom)) ∧
      ∀ p ∈ f.dict, p.1 ≠ p.2 := by
  have hkeys : (((f.colors.filter (fun c => c.changed)).map
      (fun c => (c.original, c.custom))).map Prod.fst).Nodup := by
    rw [List.map_map]
    exact hnodup
  have heq :
      f.dict = (f.colors.filter (fun c => c.changed)).map
        (fun c => (c.original, c.custom)) :=
    dictOf_eq_self_of_nodup _ hkeys
  refine ⟨heq, fun p hp => ?_⟩
  rw [heq] at hp
  obtain ⟨c, hc, rfl⟩ := List.mem_map.mp hp
  obtain ⟨hcmem, hchanged⟩ := List.mem_filter.mp hc
  have hne : (c.original != c.custom) = true := (hwf c hcmem) ▸ hchanged
  exact bne_iff_ne.mp hne

/-- C7 witness: the sample flavor with one changed and one unchanged
color. -/
theorem c7_diff_exact_and_minimal_witness :
    sampleFlavor.dict = (sampleFlavor.colors.filter (fun c => c.changed)).map
        (fun c => (c.original, c.custom)) ∧
      ∀ p ∈ sampleFlavor.dict, p.1 ≠ p.2 :=
  c7_diff_exact_and_minimal sampleFlavor (by decide) (by decide)

/-- C8: absolute (`'value'`) mode returns the rule's value ignoring the
current channel value; `'multiply'` mode returns the current value times
the rule's value. -/
theorem c8_edit_call_modes (e : Edit) (v : Float) :
    (e.type = "value" → e.call v = .ok e.value) ∧
      (e.type = "multiply" → e.call v = .ok (v * e.value)) := by
  constructor
  · intro h; simp [Edit.call, h]
  · intro h; simp [Edit.call, h]

/-- C8 witness: the two modes evaluated on concrete rules at the channel
value `2.0`. -/
theorem c8_edit_call_modes_witness :
    absEdit.call 2.0 = .ok absEdit.value ∧
      mulEdit.call 2.0 = .ok (2.0 * mulEdit.value) :=
  ⟨(c8_edit_call_modes absEdit 2.0).1 rfl,
    (c8_edit_call_modes mulEdit 2.0).2 rfl⟩

/-- C9: an absolute-mode rule is idempotent: if the first application of
the rule to a channel value `v` yields `w`, applying the rule again to `w`
yields the same result as the single application (the channel is
overwritten with the rule's value, not accumulated). -/
theorem c9_absolute_idempotent (e : Edit) (h : e.type = "value")
    (v w : Float) (_hw : e.call v = .ok w) : e.call w = e.call v := by
  have h1 : e.call v = .ok e.value := by simp [Edit.call, h]
  have h2 : e.call w = .ok e.value := by simp [Edit.call, h]
  rw [h1, h2]

/-- C9 witness: the absolute rule applied at `2.0`; reapplying it to its
own output changes nothing. -/
theorem c9_absolute_idempotent_witness :
    absEdit.type = "value" ∧ absEdit.call 2.0 = .ok absEdit.value ∧
      absEdit.call absEdit.value = absEdit.call 2.0 := by
  have hcall : absEdit.call 2.0 = .ok absEdit.value := by
    simp [Edit.call, absEdit]
  exact ⟨rfl, hcall,
    c9_absolute_idempotent absEdit rfl 2.0 absEdit.value hcall⟩

/-- C10: merging every flavor's diff view into the single Python dict
consumed by the substitution loop (`dict(self._colors())`) keeps, for each
original hex, the custom value of the LAST pair yielded for it (later
flavors overwrite earlier ones), and the merged dict's keys are distinct,
so the substitution loop processes each distinct original hex exactly once,
not once per flavor. -/
theorem c10_merged_diff_last_flavor_wins (palette : List Flavor)
    (k : String) :
    ((dictOf (replaceColors palette)).map Prod.fst).Nodup ∧
      dictLookup (dictOf (replaceColors palette)) k =
        (((replaceColors palette).filter (fun p => p.1 = k)).getLast?).map
          Prod.snd :=
  ⟨dictOf_keys_nodup _, dictLookup_dictOf _ k⟩

end Catppuccin
